import Mathlib

set_option maxRecDepth 100000

/-!
Verification of the shared `ToolCache` (tool_cache.py) and of the
person/tense alias-resolution and conjugation-table navigation logic
(french-conjugator-verbecc.py).

The Python code is shallowly embedded: the cache is a record holding the
in-memory dict (an association list), its `max_age` in seconds, and the
durable backing file's contents; the wall clock is passed explicitly to
every operation that reads `time.time()`.  Cache keys are computed exactly
as in the source: the arguments are joined with the pipe separator,
UTF-8 encoded, and digested with MD5 (implemented below over `Nat`,
with explicit reduction modulo 2^32).
-/

/-- 32-bit left rotation on `Nat` values below 2^32. -/
def rotl32 (x n : Nat) : Nat :=
  ((x <<< n) % 4294967296) + (x >>> (32 - n))

/-- The 64 MD5 round constants, `floor(2^32 * abs(sin(i+1)))`. -/
def md5K : List Nat :=
  [0xd76aa478, 0xe8c7b756, 0x242070db, 0xc1bdceee,
   0xf57c0faf, 0x4787c62a, 0xa8304613, 0xfd469501,
   0x698098d8, 0x8b44f7af, 0xffff5bb1, 0x895cd7be,
   0x6b901122, 0xfd987193, 0xa679438e, 0x49b40821,
   0xf61e2562, 0xc040b340, 0x265e5a51, 0xe9b6c7aa,
   0xd62f105d, 0x02441453, 0xd8a1e681, 0xe7d3fbc8,
   0x21e1cde6, 0xc33707d6, 0xf4d50d87, 0x455a14ed,
   0xa9e3e905, 0xfcefa3f8, 0x676f02d9, 0x8d2a4c8a,
   0xfffa3942, 0x8771f681, 0x6d9d6122, 0xfde5380c,
   0xa4beea44, 0x4bdecfa9, 0xf6bb4b60, 0xbebfbc70,
   0x289b7ec6, 0xeaa127fa, 0xd4ef3085, 0x04881d05,
   0xd9d4d039, 0xe6db99e5, 0x1fa27cf8, 0xc4ac5665,
   0xf4292244, 0x432aff97, 0xab9423a7, 0xfc93a039,
   0x655b59c3, 0x8f0ccc92, 0xffeff47d, 0x85845dd1,
   0x6fa87e4f, 0xfe2ce6e0, 0xa3014314, 0x4e0811a1,
   0xf7537e82, 0xbd3af235, 0x2ad7d2bb, 0xeb86d391]

/-- The per-round shift amounts of MD5. -/
def md5S : List Nat :=
  [7, 12, 17, 22, 7, 12, 17, 22, 7, 12, 17, 22, 7, 12, 17, 22,
   5, 9, 14, 20, 5, 9, 14, 20, 5, 9, 14, 20, 5, 9, 14, 20,
   4, 11, 16, 23, 4, 11, 16, 23, 4, 11, 16, 23, 4, 11, 16, 23,
   6, 10, 15, 21, 6, 10, 15, 21, 6, 10, 15, 21, 6, 10, 15, 21]

/-- The MD5 nonlinear mixing function of round `i`. -/
def md5F (i b c d : Nat) : Nat :=
  if i < 16 then (b &&& c) ||| ((Nat.xor b 4294967295) &&& d)
  else if i < 32 then (d &&& b) ||| ((Nat.xor d 4294967295) &&& c)
  else if i < 48 then Nat.xor (Nat.xor b c) d
  else Nat.xor c (b ||| (Nat.xor d 4294967295))

/-- The MD5 message-word index schedule of round `i`. -/
def md5G (i : Nat) : Nat :=
  if i < 16 then i
  else if i < 32 then (5 * i + 1) % 16
  else if i < 48 then (3 * i + 5) % 16
  else (7 * i) % 16

/-- One MD5 round on the state `(a, b, c, d)` with message block `M`. -/
def md5step (M : List Nat) (st : Nat × Nat × Nat × Nat) (i : Nat) :
    Nat × Nat × Nat × Nat :=
  let a := st.1
  let b := st.2.1
  let c := st.2.2.1
  let d := st.2.2.2
  let t := (a + md5F i b c d + md5K.getD i 0 + M.getD (md5G i) 0) % 4294967296
  let b2 := (b + rotl32 t (md5S.getD i 0)) % 4294967296
  (d, b2, b, c)

/-- MD5 compression of one 16-word block into the chaining state. -/
def md5compress (st : Nat × Nat × Nat × Nat) (M : List Nat) :
    Nat × Nat × Nat × Nat :=
  let r := (List.range 64).foldl (md5step M) st
  ((st.1 + r.1) % 4294967296, (st.2.1 + r.2.1) % 4294967296,
   (st.2.2.1 + r.2.2.1) % 4294967296, (st.2.2.2 + r.2.2.2) % 4294967296)

/-- Group a byte list into little-endian 32-bit words. -/
def bytesToWords : List Nat → List Nat
  | b0 :: b1 :: b2 :: b3 :: rest =>
      (b0 + 256 * b1 + 65536 * b2 + 16777216 * b3) :: bytesToWords rest
  | _ => []

/-- The 8-byte little-endian encoding of the bit-length field. -/
def lenBytes (n : Nat) : List Nat :=
  [n % 256, n / 256 % 256, n / 65536 % 256, n / 16777216 % 256,
   n / 4294967296 % 256, n / 1099511627776 % 256,
   n / 281474976710656 % 256, n / 72057594037927936 % 256]

/-- MD5 padding: append 0x80, zero bytes to reach 56 mod 64, then the
bit length modulo 2^64. -/
def md5pad (msg : List Nat) : List Nat :=
  let len := msg.length
  msg ++ 128 :: List.replicate ((119 - len % 64) % 64) 0
      ++ lenBytes ((8 * len) % 18446744073709551616)

/-- Split a padded message (always a whole number of 16-word blocks)
into its consecutive 16-word blocks. -/
def chunk16 : List Nat → List (List Nat)
  | a0 :: a1 :: a2 :: a3 :: a4 :: a5 :: a6 :: a7 ::
    a8 :: a9 :: a10 :: a11 :: a12 :: a13 :: a14 :: a15 :: rest =>
      [a0, a1, a2, a3, a4, a5, a6, a7,
       a8, a9, a10, a11, a12, a13, a14, a15] :: chunk16 rest
  | _ => []

/-- Fold the MD5 compression over consecutive 16-word blocks. -/
def md5blocks (st : Nat × Nat × Nat × Nat) (ws : List Nat) :
    Nat × Nat × Nat × Nat :=
  (chunk16 ws).foldl md5compress st

/-- Hexadecimal digit character for a value below 16. -/
def hexDigitChar (n : Nat) : Char :=
  if n < 10 then Char.ofNat (48 + n) else Char.ofNat (87 + n)

/-- Two lowercase hex characters of a byte. -/
def byteHexChars (b : Nat) : List Char :=
  [hexDigitChar (b / 16), hexDigitChar (b % 16)]

/-- The 8 hex characters of a 32-bit word, bytes little-endian first. -/
def wordHexLE (w : Nat) : List Char :=
  byteHexChars (w % 256) ++ byteHexChars (w / 256 % 256) ++
  byteHexChars (w / 65536 % 256) ++ byteHexChars (w / 16777216 % 256)

/-- The lowercase hex MD5 digest of a byte list, as `hexdigest()` yields. -/
def md5hexOfBytes (msg : List Nat) : String :=
  let r := md5blocks (0x67452301, 0xefcdab89, 0x98badcfe, 0x10325476)
      (bytesToWords (md5pad msg))
  String.mk (wordHexLE r.1 ++ wordHexLE r.2.1 ++
      wordHexLE r.2.2.1 ++ wordHexLE r.2.2.2)

/-- UTF-8 encoding of one character, as a list of byte values. -/
def utf8EncodeChar (c : Char) : List Nat :=
  let n := c.toNat
  if n < 128 then [n]
  else if n < 2048 then [192 + n / 64, 128 + n % 64]
  else if n < 65536 then [224 + n / 4096, 128 + n / 64 % 64, 128 + n % 64]
  else [240 + n / 262144, 128 + n / 4096 % 64, 128 + n / 64 % 64, 128 + n % 64]

/-- UTF-8 encoding of a string, as `str.encode` produces. -/
def utf8Encode (s : String) : List Nat :=
  (s.data.map utf8EncodeChar).flatten

/-- Join character lists with the pipe separator, as `sep.join` does. -/
def joinPipe : List (List Char) → List Char
  | [] => []
  | [a] => a
  | a :: b :: t => a ++ '|' :: joinPipe (b :: t)

/-- The pre-digest key string of `_generate_key`: the arguments joined
with the pipe separator (the arguments are already strings, so `str`
is the identity on them). -/
def key_string (args : List String) : String :=
  String.mk (joinPipe (args.map String.data))

/-- `ToolCache._generate_key`: MD5 hex digest of the UTF-8 encoded
pipe-joined argument tuple. -/
def _generate_key (args : List String) : String :=
  md5hexOfBytes (utf8Encode (key_string args))

/-!
## The cache data model

`ToolCache` keeps a JSON-backed dict `self.cache` mapping MD5 hex keys to
entries `{data, timestamp, args}`.  The dict is embedded as an association
list in insertion order; Python `None` is `Option.none`, so a stored value
(which may itself be `None`) is an `Option α`.  Timestamps are rationals,
standing for the `time.time()` float.  The durable backing file is carried
in the state so that write-through persistence is observable.
-/

/-- One value of `self.cache`: `{'data': ..., 'timestamp': ..., 'args': ...}`.
`data` is the stored Python value, `none` standing for Python `None`. -/
structure CacheEntry (α : Type) where
  data : Option α
  timestamp : ℚ
  args : List String

/-- Contents of the durable cache file as seen by `_load_cache`:
missing, unreadable-or-undecodable (`IOError` / `json.JSONDecodeError`),
or a well-formed serialized entry mapping. -/
inductive Backing (α : Type) where
  | absent
  | corrupt
  | ok (entries : List (String × CacheEntry α))

/-- The `ToolCache` state: `max_age` in seconds, the in-memory dict
`self.cache`, and the durable backing file contents. -/
structure ToolCache (α : Type) where
  max_age : ℚ
  cache : List (String × CacheEntry α)
  file : Backing α

/-- Python dict membership / indexing: the value at the first (unique)
binding of the key. -/
def dictFind (l : List (String × β)) (k : String) : Option β :=
  match l with
  | [] => none
  | (k0, v) :: t => if k0 = k then some v else dictFind t k

/-- Python dict assignment `d[k] = v`: overwrite in place if the key is
bound, otherwise append at the end (insertion order). -/
def dictSet (l : List (String × β)) (k : String) (v : β) : List (String × β) :=
  match l with
  | [] => [(k, v)]
  | (k0, v0) :: t => if k0 = k then (k, v) :: t else (k0, v0) :: dictSet t k v

/-- Python dict deletion `del d[k]` (dict keys are unique, so removing
every binding of `k` is the same operation). -/
def dictDel (l : List (String × β)) (k : String) : List (String × β) :=
  l.filter (fun p => !(p.1 == k))

/-- `ToolCache._load_cache`: a readable well-formed file loads its
entries; a missing file, an `IOError` or a `json.JSONDecodeError`
yield the empty dict. -/
def _load_cache : Backing α → List (String × CacheEntry α)
  | .ok e => e
  | _ => []

/-- `ToolCache.__init__`reduced to its state effect: bind `max_age` and
load the cache from the backing file. -/
def ToolCache.init (b : Backing α) (max_age : ℚ) : ToolCache α :=
  ⟨max_age, _load_cache b, b⟩

/-- `ToolCache._save_cache`: write the in-memory dict through to the
backing file (the `IOError` branch only logs and keeps memory as the
source of truth; persistence itself is modelled as succeeding). -/
def ToolCache._save_cache (c : ToolCache α) : ToolCache α :=
  { c with file := .ok c.cache }

/-- `ToolCache._is_expired` at clock value `now`. -/
def ToolCache._is_expired (c : ToolCache α) (now ts : ℚ) : Bool :=
  decide (now - ts > c.max_age)

/-- `ToolCache.get`: look the key up; on a hit that is expired, delete
the entry, persist, and return `None`; on a fresh hit return the stored
data; on a miss return `None`.  The returned pair is (Python return
value, state after the call). -/
def ToolCache.get (c : ToolCache α) (now : ℚ) (args : List String) :
    Option α × ToolCache α :=
  let key := _generate_key args
  match dictFind c.cache key with
  | some entry =>
      if c._is_expired now entry.timestamp then
        (none, ToolCache._save_cache { c with cache := dictDel c.cache key })
      else
        (entry.data, c)
  | none => (none, c)

/-- `ToolCache.set`: store `{data, timestamp := now, args}` under the
generated key and persist immediately. -/
def ToolCache.set (c : ToolCache α) (now : ℚ) (data : Option α)
    (args : List String) : ToolCache α :=
  ToolCache._save_cache
    { c with cache := dictSet c.cache (_generate_key args) ⟨data, now, args⟩ }

/-- `ToolCache.clear`: empty the dict and unlink the backing file. -/
def ToolCache.clear (c : ToolCache α) : ToolCache α :=
  { c with cache := [], file := .absent }

/-- The expiry test used by `cleanup_expired` and `get_stats` on one
dict binding. -/
def expiredAt (max_age now : ℚ) (p : String × CacheEntry α) : Bool :=
  decide (now - p.2.timestamp > max_age)

/-- `ToolCache.cleanup_expired`: collect the expired keys, delete them
(dict keys are unique, so the key-by-key deletion loop amounts to keeping
exactly the non-expired bindings in order), persist only if something was
removed, and return the removed count. -/
def ToolCache.cleanup_expired (c : ToolCache α) (now : ℚ) :
    Nat × ToolCache α :=
  let expired_keys := (c.cache.filter (expiredAt c.max_age now)).map Prod.fst
  let newCache := c.cache.filter (fun p => !expiredAt c.max_age now p)
  (expired_keys.length,
   { c with cache := newCache,
            file := if expired_keys.isEmpty then c.file else .ok newCache })

/-- The record returned by `get_stats`. -/
structure CacheStats where
  total_entries : Nat
  file_size : Nat
  expired_entries : Nat
deriving DecidableEq

/-- `ToolCache.get_stats`: zeros on an empty dict; otherwise the entry
count, the backing file's byte size (an external observation, passed in
as `fsize`), and the count of currently expired entries. -/
def ToolCache.get_stats (c : ToolCache α) (now : ℚ) (fsize : Nat) :
    CacheStats :=
  if c.cache.isEmpty then ⟨0, 0, 0⟩
  else ⟨c.cache.length, fsize, c.cache.countP (expiredAt c.max_age now)⟩

/-- A `get_stats` method call as a state transition: it returns the
statistics and leaves the receiver untouched (the method body contains
no assignment and no save). -/
def ToolCache.get_stats_call (c : ToolCache α) (now : ℚ) (fsize : Nat) :
    CacheStats × ToolCache α :=
  (c.get_stats now fsize, c)

/-!
## The conjugator's alias tables and table navigation

From french-conjugator-verbecc.py: the module-level `PERSONS` and
`TENSES` tables (in declaration order), `normalize_person` /
`normalize_tense`, and the row-extraction logic of
`display_specific_conjugation` and `display_person_conjugations`.
A verbecc payload's `moods` value is a dict of dicts of string lists,
embedded as nested association lists in insertion order.
-/

/-- Python ASCII/Latin-1 lowercasing as `str.lower()` behaves on the
characters occurring in this program's tables: ASCII capitals and
Latin-1 capitals (À–Þ, except ×) shift by 32, everything else is kept. -/
def py_lower_char (c : Char) : Char :=
  let n := c.toNat
  if 65 ≤ n ∧ n ≤ 90 then Char.ofNat (n + 32)
  else if 192 ≤ n ∧ n ≤ 222 ∧ n ≠ 215 then Char.ofNat (n + 32)
  else c

/-- The whitespace characters removed by `str.strip()`. -/
def py_space (c : Char) : Bool :=
  c == ' ' || c == Char.ofNat 9 || c == Char.ofNat 10 ||
  c == Char.ofNat 13 || c == Char.ofNat 11 || c == Char.ofNat 12

/-- `s.lower().strip()` as applied by both normalizers. -/
def py_lower_strip (s : String) : String :=
  String.mk ((((s.data.map py_lower_char).dropWhile py_space).reverse.dropWhile
      py_space).reverse)

/-- The module-level `PERSONS` dict: canonical person keys with their
accepted variations, in declaration order. -/
def PERSONS : List (String × List String) :=
  [("je", ["je", String.mk ['j', Char.ofNat 39], "j"]),
   ("tu", ["tu"]),
   ("il", ["il", "elle", "on"]),
   ("nous", ["nous"]),
   ("vous", ["vous"]),
   ("ils", ["ils", "elles"])]

/-- One `TENSES` value: the alias list and the verbecc mood/tense keys. -/
structure TenseInfo where
  aliases : List String
  mood : String
  tense : String

/-- The module-level `TENSES` dict, in declaration order. -/
def TENSES : List (String × TenseInfo) :=
  [("présent", ⟨["présent", "present", "p"], "indicatif", "présent"⟩),
   ("imparfait", ⟨["imparfait", "imperfect", "i"], "indicatif", "imparfait"⟩),
   ("passé simple",
     ⟨["passé simple", "passé-simple", "simple", "ps"],
      "indicatif", "passé-simple"⟩),
   ("futur simple",
     ⟨["futur simple", "futur-simple", "futur", "future", "f"],
      "indicatif", "futur-simple"⟩),
   ("passé composé",
     ⟨["passé composé", "passé-composé", "passe-compose", "pc"],
      "indicatif", "passé-composé"⟩),
   ("plus-que-parfait",
     ⟨["plus-que-parfait", "pluperfect", "pqp"],
      "indicatif", "plus-que-parfait"⟩),
   ("passé antérieur",
     ⟨["passé antérieur", "passé-antérieur", "passe-anterieur", "pa"],
      "indicatif", "passé-antérieur"⟩),
   ("futur antérieur",
     ⟨["futur antérieur", "futur-antérieur", "futur-anterieur", "fa"],
      "indicatif", "futur-antérieur"⟩),
   ("conditionnel présent",
     ⟨["conditionnel présent", "conditionnel", "conditional", "c"],
      "conditionnel", "présent"⟩),
   ("conditionnel passé",
     ⟨["conditionnel passé", "conditionnel-passe", "cond-passe", "cp"],
      "conditionnel", "passé"⟩),
   ("subjonctif présent",
     ⟨["subjonctif présent", "subjonctif", "subjunctive", "s"],
      "subjonctif", "présent"⟩),
   ("subjonctif imparfait",
     ⟨["subjonctif imparfait", "subj-imp", "si"], "subjonctif", "imparfait"⟩),
   ("subjonctif passé",
     ⟨["subjonctif passé", "subj-passe", "sp"], "subjonctif", "passé"⟩),
   ("subjonctif plus-que-parfait",
     ⟨["subjonctif plus-que-parfait", "subj-pqp", "spqp"],
      "subjonctif", "plus-que-parfait"⟩),
   ("impératif présent",
     ⟨["impératif présent", "imperatif", "imperative", "impér", "im"],
      "imperatif", "imperatif-présent"⟩),
   ("impératif passé",
     ⟨["impératif passé", "impér-passé", "imperatif-passe", "imp"],
      "imperatif", "imperatif-passé"⟩),
   ("infinitif présent",
     ⟨["infinitif présent", "infinitif", "infinitive", "inf"],
      "infinitif", "infinitif-présent"⟩),
   ("infinitif passé",
     ⟨["infinitif passé", "inf-passe", "inf-passé"],
      "infinitif", "infinitif-passé"⟩),
   ("participe présent",
     ⟨["participe présent", "part-pres", "participle", "part", "gérondif",
       "ger"], "participe", "participe-présent"⟩),
   ("participe passé",
     ⟨["participe passé", "part-passe", "part-passé", "pp"],
      "participe", "participe-passé"⟩)]

/-- First canonical person key (in declaration order) whose variation
list contains the normalized input. -/
def personScan (p : String) : List (String × List String) → Option String
  | [] => none
  | (std, vars) :: t => if vars.contains p then some std else personScan p t

/-- First canonical tense key (in declaration order) whose alias list
contains the normalized input. -/
def tenseScan (p : String) : List (String × TenseInfo) → Option String
  | [] => none
  | (std, info) :: t => if info.aliases.contains p then some std else tenseScan p t

/-- `normalize_person`: lower-case and strip, then first-match over the
`PERSONS` variations; `None` when no variation matches. -/
def normalize_person (person_input : String) : Option String :=
  personScan (py_lower_strip person_input) PERSONS

/-- `normalize_tense`: lower-case and strip, then first-match over the
`TENSES` aliases; `None` when no alias matches. -/
def normalize_tense (tense_input : String) : Option String :=
  tenseScan (py_lower_strip tense_input) TENSES

/-- Boolean list prefix test on characters. -/
def chPrefixOf : List Char → List Char → Bool
  | [], _ => true
  | _ :: _, [] => false
  | a :: as, b :: bs => a == b && chPrefixOf as bs

/-- Boolean substring test on character lists. -/
def chInfixOf (sub : List Char) : List Char → Bool
  | [] => chPrefixOf sub []
  | b :: bs => chPrefixOf sub (b :: bs) || chInfixOf sub bs

/-- Python `sub in s` on strings: substring containment. -/
def py_in (sub s : String) : Bool :=
  chInfixOf sub.data s.data

/-- Python `l.index(x)` combined with the `x in l` guard: the position of
the first occurrence, `none` when absent (the code's `-1`). -/
def py_index (l : List String) (x : String) : Option Nat :=
  match l with
  | [] => none
  | a :: t => if a = x then some 0 else (py_index t x).map (· + 1)

/-- The fixed person lists of the source. -/
def persons6 : List String := ["je", "tu", "il", "nous", "vous", "ils"]

/-- The imperative 3-slot person list of the source. -/
def imp_persons : List String := ["tu", "nous", "vous"]

/-- The row-extraction core of `display_specific_conjugation` (lines
373–398): given the verbecc tense key and its form list, the value that
`conjugated_form` holds afterwards.  Infinitive/participle rows yield
their first form for any person; imperative rows map the person through
the 3-slot list; all other rows map it through the 6-person list; a
person absent from the applicable list, or an index beyond the row's
length, leaves `conjugated_form` as `None`. -/
def extract_specific (tense_key : String) (tense_data : List String)
    (person : String) : Option String :=
  if tense_data.isEmpty then none
  else if py_in "infinitif" tense_key || py_in "participe" tense_key then
    tense_data.head?
  else if py_in "imperatif" tense_key then
    match py_index imp_persons person with
    | some i => tense_data.get? i
    | none => none
  else
    match py_index persons6 person with
    | some i => tense_data.get? i
    | none => none

/-- The mood/tense lookup wrapped around `extract_specific` (lines
368–398): `conjugation[mood][tense_key]` when both keys are present. -/
def display_specific_extract
    (conjugation : List (String × List (String × List String)))
    (mood tense_key person : String) : Option String :=
  match dictFind conjugation mood with
  | none => none
  | some mood_data =>
      match dictFind mood_data tense_key with
      | none => none
      | some tense_data => extract_specific tense_key tense_data person

/-- The per-row body of `display_person_conjugations`' loop (lines
302–324): the row that would be added to the output table for this
mood/tense, or `none` when the row is skipped.  Imperative tense names
are checked first, then infinitive/participle names are skipped, then
the regular 6-person indexing applies; a falsy `conjugated_form`
(`None` or the empty string) adds nothing. -/
def person_row (person mood_name : String) (td : String × List String) :
    Option (String × String × String) :=
  if td.2.isEmpty then none
  else
    let form : Option String :=
      if py_in "imperatif" td.1 then
        match py_index imp_persons person with
        | some i => td.2.get? i
        | none => none
      else if py_in "infinitif" td.1 || py_in "participe" td.1 then none
      else
        match py_index persons6 person with
        | some i => td.2.get? i
        | none => none
    match form with
    | some f => if f = "" then none else some (mood_name, td.1, f)
    | none => none

/-- The rows accumulated by `display_person_conjugations` (lines
296–324), in the table's own mood-then-tense insertion order. -/
def display_person_rows
    (conjugation : List (String × List (String × List String)))
    (person : String) : List (String × String × String) :=
  conjugation.flatMap (fun md => md.2.filterMap (person_row person md.1))

/-!
## Spec-side row-shape vocabulary

These definitions follow the specification's words (row shapes and the
persons a shape admits) and are used only to compare the source-derived
`display_person_rows` against the spec's description of
`extractAllForPerson`.
-/

/-- The three row shapes of the spec's data model. -/
inductive RowShape where
  | full
  | imperative
  | impersonal
deriving DecidableEq

/-- Spec-side shape classification of a row, keyed on the tense's
identity the way this program names tenses (imperative first, matching
the order in which `display_person_conjugations` tests the name). -/
def specRowShape (tense_key : String) : RowShape :=
  if py_in "imperatif" tense_key then .imperative
  else if py_in "infinitif" tense_key || py_in "participe" tense_key then
    .impersonal
  else .full

/-- Spec-side: which persons a row shape admits.  Impersonal rows admit
nobody, imperative rows admit tu/nous/vous, full rows all six persons. -/
def specShapeAdmits : RowShape → String → Bool
  | .impersonal, _ => false
  | .imperative, p => imp_persons.contains p
  | .full, p => persons6.contains p

/-- Spec-side `extractAllForPerson` row selection: every mood/tense pair
whose shape admits the person, in the table's own insertion order. -/
def spec_admitted_pairs
    (conjugation : List (String × List (String × List String)))
    (person : String) : List (String × String) :=
  conjugation.flatMap (fun md =>
    (md.2.filter (fun td => specShapeAdmits (specRowShape td.1) person)).map
      (fun td => (md.1, td.1)))

/-- Well-formedness of one row: the row's length is the arity its shape
prescribes (6 for full, 3 for imperative; impersonal rows are
unconstrained since they are excluded either way) and no form is the
empty string. -/
def wfRow (td : String × List String) : Bool :=
  (match specRowShape td.1 with
   | .full => td.2.length == 6
   | .imperative => td.2.length == 3
   | .impersonal => true)
  && td.2.all (fun f => !(f == ""))

/-- Well-formedness of a whole conjugation table. -/
def wfTable (conjugation : List (String × List (String × List String))) :
    Bool :=
  conjugation.all (fun md => md.2.all wfRow)

/-!
## Dictionary lemmas and shared cache lemmas
-/

/-- Looking up the key just assigned finds the assigned value. -/
theorem dictFind_dictSet (l : List (String × β)) (k : String) (v : β) :
    dictFind (dictSet l k v) k = some v := by
  induction l with
  | nil => simp [dictSet, dictFind]
  | cons p t ih =>
    obtain ⟨k0, v0⟩ := p
    by_cases hk : k0 = k
    · simp [dictSet, hk, dictFind]
    · simp [dictSet, hk, dictFind, ih]

/-- Looking up a deleted key misses. -/
theorem dictFind_dictDel (l : List (String × β)) (k : String) :
    dictFind (dictDel l k) k = none := by
  induction l with
  | nil => rfl
  | cons p t ih =>
    obtain ⟨k0, v0⟩ := p
    by_cases hk : k0 = k
    · simpa [dictDel, List.filter_cons, hk] using ih
    · simpa [dictDel, List.filter_cons, hk, dictFind] using ih

/-- A `get` right after a `set` on the same arguments, at any clock
value at which the entry is not yet expired, returns the stored data. -/
theorem get_set_fresh {α : Type} (c : ToolCache α) (t1 t2 : ℚ)
    (v : Option α) (args : List String) (h : ¬ (t2 - t1 > c.max_age)) :
    ((c.set t1 v args).get t2 args).1 = v := by
  unfold ToolCache.set ToolCache.get ToolCache._save_cache
    ToolCache._is_expired
  simp [dictFind_dictSet, h]

/-- A `get` after a `set` on the same arguments, at a clock value past
the expiry threshold, returns `None` and removes the entry. -/
theorem get_set_expired {α : Type} (c : ToolCache α) (t1 t2 : ℚ)
    (v : Option α) (args : List String) (h : t2 - t1 > c.max_age) :
    ((c.set t1 v args).get t2 args).1 = none
    ∧ dictFind ((c.set t1 v args).get t2 args).2.cache
        (_generate_key args) = none := by
  unfold ToolCache.set ToolCache.get ToolCache._save_cache
    ToolCache._is_expired
  simp [dictFind_dictSet, h, dictFind_dictDel]

/-- A `get` whose generated key is absent returns `None` and does not
change the state. -/
theorem get_absent {α : Type} (c : ToolCache α) (now : ℚ)
    (args : List String)
    (h : dictFind c.cache (_generate_key args) = none) :
    (c.get now args).1 = none := by
  unfold ToolCache.get
  simp [h]

/-- Filtering by a predicate after keeping only its complement yields
nothing. -/
theorem filter_not_filter (p : β → Bool) (l : List β) :
    (l.filter (fun x => !p x)).filter p = [] := by
  induction l with
  | nil => rfl
  | cons a t ih =>
    cases h : p a <;> simp [List.filter_cons, h, ih]

/-- Filtering is idempotent. -/
theorem filter_idem (p : β → Bool) (l : List β) :
    (l.filter p).filter p = l.filter p := by
  induction l with
  | nil => rfl
  | cons a t ih =>
    cases h : p a <;> simp [List.filter_cons, h, ih]

/-!
## Cache claims
-/

/-- C1: writing a value with `set(v, *args)` and reading it back with
`get(*args)` before the entry ages past `maxAge` returns exactly the
stored value, for every cache state, serializable value and argument
tuple. -/
theorem toolcache_set_get_roundtrip {α : Type} (c : ToolCache α)
    (t1 t2 : ℚ) (v : Option α) (args : List String)
    (h : t2 - t1 ≤ c.max_age) :
    ((c.set t1 v args).get t2 args).1 = v :=
  get_set_fresh c t1 t2 v args (not_lt.mpr h)

/-- Witness for C1 at a concrete cache, value and argument tuple. -/
theorem toolcache_set_get_roundtrip_witness :
    ((0 : ℚ) - 0 ≤ (ToolCache.init (α := Nat) Backing.absent 2592000).max_age)
    ∧ (((ToolCache.init (α := Nat) Backing.absent 2592000).set 0 (some 7)
        ["manger", "all"]).get 0 ["manger", "all"]).1 = some 7 :=
  ⟨by norm_num [ToolCache.init],
   toolcache_set_get_roundtrip _ 0 0 (some 7) ["manger", "all"]
     (by norm_num [ToolCache.init])⟩

/-- C2: an entry written at `t0` into a cache with `maxAge = d` is
returned by `get` at `t0 + d - ε`; at `t0 + d + ε` the same `get`
returns `Miss` and deletes the entry from the store (lazy expiry); and a
`get` whose key is absent returns `Miss`. -/
theorem toolcache_expiry_boundary {α : Type} (c : ToolCache α)
    (t0 d ε : ℚ) (v : Option α) (args : List String)
    (c2 : ToolCache α) (t2 : ℚ) (args2 : List String)
    (hd : c.max_age = d) (hε : 0 < ε)
    (habs : dictFind c2.cache (_generate_key args2) = none) :
    (((c.set t0 v args).get (t0 + d - ε) args).1 = v)
    ∧ (((c.set t0 v args).get (t0 + d + ε) args).1 = none)
    ∧ (dictFind ((c.set t0 v args).get (t0 + d + ε) args).2.cache
        (_generate_key args) = none)
    ∧ ((c2.get t2 args2).1 = none) := by
  have hfresh : ¬ ((t0 + d - ε) - t0 > c.max_age) := by rw [hd]; intro hlt; linarith
  have hexp : (t0 + d + ε) - t0 > c.max_age := by rw [hd]; linarith
  exact ⟨get_set_fresh c t0 _ v args hfresh,
         (get_set_expired c t0 _ v args hexp).1,
         (get_set_expired c t0 _ v args hexp).2,
         get_absent c2 t2 args2 habs⟩

/-- Witness for C2 at a concrete cache with `maxAge = 2` and `ε = 1`. -/
theorem toolcache_expiry_boundary_witness :
    ((ToolCache.init (α := Nat) Backing.absent 2).max_age = 2)
    ∧ ((0 : ℚ) < 1)
    ∧ (dictFind (ToolCache.init (α := Nat) Backing.absent 2).cache
        (_generate_key ["y"]) = none)
    ∧ ((((ToolCache.init (α := Nat) Backing.absent 2).set 0 (some 5)
          ["x"]).get (0 + 2 - 1) ["x"]).1 = some 5)
    ∧ ((((ToolCache.init (α := Nat) Backing.absent 2).set 0 (some 5)
          ["x"]).get (0 + 2 + 1) ["x"]).1 = none)
    ∧ (dictFind (((ToolCache.init (α := Nat) Backing.absent 2).set 0 (some 5)
          ["x"]).get (0 + 2 + 1) ["x"]).2.cache (_generate_key ["x"]) = none)
    ∧ (((ToolCache.init (α := Nat) Backing.absent 2).get 0 ["y"]).1
        = none) := by
  have h := toolcache_expiry_boundary
    (ToolCache.init (α := Nat) Backing.absent 2) 0 2 1 (some 5) ["x"]
    (ToolCache.init (α := Nat) Backing.absent 2) 0 ["y"]
    rfl (by norm_num) rfl
  exact ⟨rfl, by norm_num, rfl, h.1, h.2.1, h.2.2.1, h.2.2.2⟩

/-- C6: with an unchanged clock, `cleanup_expired` run a second time
removes nothing, returns 0 and leaves the state exactly as the first run
left it; the first run leaves no expired entry behind. -/
theorem cleanup_expired_idempotent {α : Type} (c : ToolCache α) (now : ℚ) :
    (((c.cleanup_expired now).2.cleanup_expired now).1 = 0)
    ∧ (((c.cleanup_expired now).2.cleanup_expired now).2
        = (c.cleanup_expired now).2)
    ∧ (((c.cleanup_expired now).2.cache.all
        (fun p => !expiredAt c.max_age now p)) = true) := by
  unfold ToolCache.cleanup_expired
  refine ⟨?_, ?_, ?_⟩
  · simp [filter_not_filter]
  · simp [filter_not_filter, filter_idem]
  · simp only [List.all_eq_true, List.mem_filter]
    exact fun p hp => hp.2

/-- C8: a `get_stats` call leaves the cache state (entry mapping and
durable backing) unchanged, and the `expired_entries` figure it reports
equals the number of entries `cleanup_expired` would remove at the same
instant. -/
theorem get_stats_readonly_expired_count {α : Type} (c : ToolCache α)
    (now : ℚ) (fsize : Nat) :
    ((c.get_stats_call now fsize).2 = c)
    ∧ ((c.get_stats_call now fsize).1.expired_entries
        = (c.cleanup_expired now).1) := by
  refine ⟨rfl, ?_⟩
  unfold ToolCache.get_stats_call ToolCache.get_stats ToolCache.cleanup_expired
  by_cases h : c.cache.isEmpty
  · rw [List.isEmpty_iff] at h
    simp [h]
  · simp [h, List.countP_eq_length_filter]

/-- C7: opening a cache over an unreadable or corrupt backing starts
from the empty mapping instead of failing, and a subsequent `set`
followed by `get` on the same arguments still returns the stored
value. -/
theorem corrupt_backing_empty_start {α : Type} (d now : ℚ)
    (v : Option α) (args : List String) (hd : 0 ≤ d) :
    ((ToolCache.init (α := α) Backing.corrupt d).cache = [])
    ∧ (((ToolCache.init (α := α) Backing.corrupt d).set now v args).get
        now args).1 = v := by
  refine ⟨rfl, ?_⟩
  apply get_set_fresh
  simp [ToolCache.init]
  linarith

/-- Witness for C7 at a concrete corrupt backing. -/
theorem corrupt_backing_empty_start_witness :
    ((0 : ℚ) ≤ 2592000)
    ∧ ((ToolCache.init (α := Nat) Backing.corrupt 2592000).cache = [])
    ∧ (((ToolCache.init (α := Nat) Backing.corrupt 2592000).set 0 (some 3)
        ["chat"]).get 0 ["chat"]).1 = some 3 := by
  have h := corrupt_backing_empty_start (α := Nat) 2592000 0 (some 3)
    ["chat"] (by norm_num)
  exact ⟨by norm_num, h.1, h.2⟩

/-- C10: the `Miss` sentinel of `get` is Python `None` itself — storing
`None` and reading it back returns `None`, exactly what `get` returns on
an absent key, so a cached `None` is indistinguishable from a miss at
the `get` interface. -/
theorem cached_none_indistinguishable {α : Type} (c : ToolCache α)
    (now : ℚ) (args : List String) (c2 : ToolCache α) (now2 : ℚ)
    (args2 : List String) (h : 0 ≤ c.max_age)
    (habs : dictFind c2.cache (_generate_key args2) = none) :
    (((c.set now none args).get now args).1 = none)
    ∧ ((c2.get now2 args2).1 = none) := by
  refine ⟨?_, get_absent c2 now2 args2 habs⟩
  apply get_set_fresh
  simp
  linarith

/-!
## Alias resolution (C5) and row-shape extraction (C4)
-/

theorem personScan_eq_none (p : String) (l : List (String × List String))
    (h : ∀ q ∈ l, q.2.contains p = false) : personScan p l = none := by
  induction l with
  | nil => rfl
  | cons q t ih =>
    have hq := h q (by simp)
    simp only [personScan, hq, Bool.false_eq_true, if_false]
    exact ih (fun x hx => h x (List.mem_cons_of_mem q hx))

theorem tenseScan_eq_none (p : String) (l : List (String × TenseInfo))
    (h : ∀ q ∈ l, q.2.aliases.contains p = false) : tenseScan p l = none := by
  induction l with
  | nil => rfl
  | cons q t ih =>
    have hq := h q (by simp)
    simp only [tenseScan, hq, Bool.false_eq_true, if_false]
    exact ih (fun x hx => h x (List.mem_cons_of_mem q hx))

/-- C5: every alias declared under a canonical person key resolves (after
the normalizer's lower-casing and stripping) to that key, and likewise
for tense aliases — no alias is claimed by an earlier key, so the
first-declared-wins scan returns the declaring key itself; any input
whose normalized form occurs in no alias set resolves to `None`. -/
theorem normalize_alias_resolution (s : String)
    (hp : PERSONS.all
      (fun q => !(q.2.contains (py_lower_strip s))) = true)
    (ht : TENSES.all
      (fun q => !(q.2.aliases.contains (py_lower_strip s))) = true) :
    (PERSONS.all
      (fun q => q.2.all (fun a => normalize_person a == some q.1)) = true)
    ∧ (TENSES.all
      (fun q => q.2.aliases.all (fun a => normalize_tense a == some q.1)) = true)
    ∧ (normalize_person s = none)
    ∧ (normalize_tense s = none) := by
  refine ⟨by decide, by decide, ?_, ?_⟩
  · exact personScan_eq_none _ _ (fun q hq => by
      have := (List.all_eq_true.mp hp) q hq
      simpa using this)
  · exact tenseScan_eq_none _ _ (fun q hq => by
      have := (List.all_eq_true.mp ht) q hq
      simpa using this)

/-- Witness for C5 at an input matching no alias. -/
theorem normalize_alias_resolution_witness :
    (PERSONS.all
      (fun q => !(q.2.contains (py_lower_strip "zzz"))) = true)
    ∧ (TENSES.all
      (fun q => !(q.2.aliases.contains (py_lower_strip "zzz"))) = true)
    ∧ (PERSONS.all
      (fun q => q.2.all (fun a => normalize_person a == some q.1)) = true)
    ∧ (TENSES.all
      (fun q => q.2.aliases.all (fun a => normalize_tense a == some q.1)) = true)
    ∧ (normalize_person "zzz" = none)
    ∧ (normalize_tense "zzz" = none) := by
  have h := normalize_alias_resolution "zzz" (by decide) (by decide)
  exact ⟨by decide, by decide, h.1, h.2.1, h.2.2.1, h.2.2.2⟩

theorem py_index_eq_none (l : List String) (x : String)
    (h : l.contains x = false) : py_index l x = none := by
  induction l with
  | nil => rfl
  | cons a t ih =>
    simp only [List.contains_cons, Bool.or_eq_false_iff] at h
    have ha : ¬ (a = x) := by
      intro hh
      rw [hh] at h
      simpa using h.1
    simp only [py_index, if_neg ha, ih h.2, Option.map_none']

/-- C4: the row extraction of `display_specific_conjugation` respects
the row shape of the category — a Full row of six forms yields its last
form for the 3rd-plural person, an Imperative row of three forms yields
its middle form for the 1st-plural person and nothing for a person
outside tu/nous/vous, and an Impersonal (infinitive/participle) row
yields its first form whatever person is supplied. -/
theorem extract_row_shape (tkF tkI tkP p q : String)
    (f0 f1 f2 f3 f4 f5 g0 g1 g2 h0 : String) (hs : List String)
    (hF1 : py_in "infinitif" tkF = false)
    (hF2 : py_in "participe" tkF = false)
    (hF3 : py_in "imperatif" tkF = false)
    (hI1 : py_in "infinitif" tkI = false)
    (hI2 : py_in "participe" tkI = false)
    (hI3 : py_in "imperatif" tkI = true)
    (hP : (py_in "infinitif" tkP || py_in "participe" tkP) = true)
    (hp : imp_persons.contains p = false) :
    (extract_specific tkF [f0, f1, f2, f3, f4, f5] "ils" = some f5)
    ∧ (extract_specific tkI [g0, g1, g2] "nous" = some g1)
    ∧ (extract_specific tkI [g0, g1, g2] p = none)
    ∧ (extract_specific tkP (h0 :: hs) q = some h0) := by
  have e1 : py_index persons6 "ils" = some 5 := by decide
  have e2 : py_index imp_persons "nous" = some 1 := by decide
  have e3 : py_index imp_persons p = none := py_index_eq_none _ _ hp
  refine ⟨?_, ?_, ?_, ?_⟩
  · simp [extract_specific, hF1, hF2, hF3, e1]
  · simp [extract_specific, hI1, hI2, hI3, e2]
  · simp [extract_specific, hI1, hI2, hI3, e3]
  · simp [extract_specific, hP]

/-- Witness for C4 at concrete tense keys, forms and persons. -/
theorem extract_row_shape_witness :
    (py_in "infinitif" "futur-simple" = false)
    ∧ (py_in "participe" "futur-simple" = false)
    ∧ (py_in "imperatif" "futur-simple" = false)
    ∧ (py_in "infinitif" "imperatif-présent" = false)
    ∧ (py_in "participe" "imperatif-présent" = false)
    ∧ (py_in "imperatif" "imperatif-présent" = true)
    ∧ ((py_in "infinitif" "participe-passé"
        || py_in "participe" "participe-passé") = true)
    ∧ (imp_persons.contains "je" = false)
    ∧ (extract_specific "futur-simple"
        ["irai", "iras", "ira", "irons", "irez", "iront"] "ils" = some "iront")
    ∧ (extract_specific "imperatif-présent" ["va", "allons", "allez"] "nous"
        = some "allons")
    ∧ (extract_specific "imperatif-présent" ["va", "allons", "allez"] "je"
        = none)
    ∧ (extract_specific "participe-passé" ("allé" :: ["allés"]) "il"
        = some "allé") := by
  have h := extract_row_shape "futur-simple" "imperatif-présent"
    "participe-passé" "je" "il" "irai" "iras" "ira" "irons" "irez" "iront"
    "va" "allons" "allez" "allé" ["allés"]
    (by decide) (by decide) (by decide) (by decide) (by decide) (by decide)
    (by decide) (by decide)
  exact ⟨by decide, by decide, by decide, by decide, by decide, by decide,
    by decide, by decide, h.1, h.2.1, h.2.2.1, h.2.2.2⟩

/-!
## Person-filtered table traversal (C9)
-/

theorem filterMap_eq_map_filter {β γ : Type} (f : β → Option γ)
    (p : β → Bool) (g : β → γ) (l : List β)
    (h : ∀ x ∈ l, f x = if p x then some (g x) else none) :
    l.filterMap f = (l.filter p).map g := by
  induction l with
  | nil => rfl
  | cons a t ih =>
    have ha := h a (by simp)
    have iht := ih (fun x hx => h x (List.mem_cons_of_mem a hx))
    by_cases hp : p a = true
    · simp [List.filterMap_cons, List.filter_cons, ha, hp, iht]
    · simp [List.filterMap_cons, List.filter_cons, ha, hp, iht]

theorem length_eq_six {γ : Type} {l : List γ} (h : l.length = 6) :
    ∃ a b c d e f, l = [a, b, c, d, e, f] := by
  cases l with
  | nil => simp at h
  | cons a l1 =>
    cases l1 with
    | nil => simp at h
    | cons b l2 =>
      cases l2 with
      | nil => simp at h
      | cons c l3 =>
        cases l3 with
        | nil => simp at h
        | cons d l4 =>
          cases l4 with
          | nil => simp at h
          | cons e l5 =>
            cases l5 with
            | nil => simp at h
            | cons f l6 =>
              cases l6 with
              | nil => exact ⟨a, b, c, d, e, f, rfl⟩
              | cons g l7 => simp at h

/-- On a canonical person and a well-formed row, the projection of the
row produced by `display_person_conjugations` to its (mood, tense)
identity is exactly the spec-side admission test. -/
theorem person_row_proj (person mood : String) (td : String × List String)
    (hp : person ∈ persons6) (hwf : wfRow td = true) :
    Option.map (fun r => (r.1, r.2.1)) (person_row person mood td)
    = if specShapeAdmits (specRowShape td.1) person then some (mood, td.1)
      else none := by
  obtain ⟨tn, row⟩ := td
  rw [wfRow, Bool.and_eq_true] at hwf
  obtain ⟨hlen0, hall⟩ := hwf
  simp only [persons6, List.mem_cons, List.not_mem_nil, or_false] at hp
  by_cases himp : py_in "imperatif" tn = true
  · have hshape : specRowShape tn = .imperative := by
      simp [specRowShape, himp]
    rw [hshape] at hlen0
    have hlen : row.length = 3 := by simpa using hlen0
    obtain ⟨g0, g1, g2, rfl⟩ := List.length_eq_three.mp hlen
    obtain ⟨h0, h1, h2⟩ : ¬(g0 = "") ∧ ¬(g1 = "") ∧ ¬(g2 = "") := by
      simpa using hall
    have etu : py_index ["tu", "nous", "vous"] "tu" = some 0 := by decide
    have enous : py_index ["tu", "nous", "vous"] "nous" = some 1 := by decide
    have evous : py_index ["tu", "nous", "vous"] "vous" = some 2 := by decide
    have eje : py_index ["tu", "nous", "vous"] "je" = none := by decide
    have eil : py_index ["tu", "nous", "vous"] "il" = none := by decide
    have eils : py_index ["tu", "nous", "vous"] "ils" = none := by decide
    rcases hp with rfl | rfl | rfl | rfl | rfl | rfl
    · simp +decide [person_row, himp, hshape, specShapeAdmits, eje, imp_persons]
    · simp +decide [person_row, himp, hshape, specShapeAdmits, etu, h0, imp_persons]
    · simp +decide [person_row, himp, hshape, specShapeAdmits, eil, imp_persons]
    · simp +decide [person_row, himp, hshape, specShapeAdmits, enous, h1, imp_persons]
    · simp +decide [person_row, himp, hshape, specShapeAdmits, evous, h2, imp_persons]
    · simp +decide [person_row, himp, hshape, specShapeAdmits, eils, imp_persons]
  · by_cases himper :
        (py_in "infinitif" tn || py_in "participe" tn) = true
    · have hshape : specRowShape tn = .impersonal := by
        simp [specRowShape, himp, himper]
      rcases hp with rfl | rfl | rfl | rfl | rfl | rfl <;>
        simp +decide [person_row, himp, himper, hshape, specShapeAdmits]
    · have hshape : specRowShape tn = .full := by
        simp only [specRowShape, himp, himper]
        rfl
      rw [hshape] at hlen0
      have hlen : row.length = 6 := by simpa using hlen0
      obtain ⟨a0, a1, a2, a3, a4, a5, rfl⟩ := length_eq_six hlen
      obtain ⟨h0, h1, h2, h3, h4, h5⟩ : ¬(a0 = "") ∧ ¬(a1 = "") ∧ ¬(a2 = "")
          ∧ ¬(a3 = "") ∧ ¬(a4 = "") ∧ ¬(a5 = "") := by
        simpa using hall
      have eje : py_index ["je", "tu", "il", "nous", "vous", "ils"] "je" = some 0 := by decide
      have etu : py_index ["je", "tu", "il", "nous", "vous", "ils"] "tu" = some 1 := by decide
      have eil : py_index ["je", "tu", "il", "nous", "vous", "ils"] "il" = some 2 := by decide
      have enous : py_index ["je", "tu", "il", "nous", "vous", "ils"] "nous" = some 3 := by decide
      have evous : py_index ["je", "tu", "il", "nous", "vous", "ils"] "vous" = some 4 := by decide
      have eils : py_index ["je", "tu", "il", "nous", "vous", "ils"] "ils" = some 5 := by decide
      rcases hp with rfl | rfl | rfl | rfl | rfl | rfl
      · simp +decide [person_row, himp, himper, hshape, specShapeAdmits, eje, h0, persons6]
      · simp +decide [person_row, himp, himper, hshape, specShapeAdmits, etu, h1, persons6]
      · simp +decide [person_row, himp, himper, hshape, specShapeAdmits, eil, h2, persons6]
      · simp +decide [person_row, himp, himper, hshape, specShapeAdmits, enous, h3, persons6]
      · simp +decide [person_row, himp, himper, hshape, specShapeAdmits, evous, h4, persons6]
      · simp +decide [person_row, himp, himper, hshape, specShapeAdmits, eils, h5, persons6]

/-- C9 counterexample: a Full-shaped six-form row whose 3rd-plural slot
holds the empty string admits person `ils` by shape, yet
`display_person_conjugations` drops it (the falsy-form check), so the
yielded rows are not exactly the shape-admitted ones. -/
theorem person_rows_cex :
    (display_person_rows
      [("indicatif", [("present", ["a", "b", "c", "d", "e", ""])])]
      "ils").map (fun r => (r.1, r.2.1))
    ≠ spec_admitted_pairs
      [("indicatif", [("present", ["a", "b", "c", "d", "e", ""])])]
      "ils" := by
  decide

/-- C9 amended: for a canonical person and a table in which every row
has the exact arity of its shape and no form is the empty string,
`display_person_conjugations` yields exactly the (mood, tense) rows
whose shape admits that person — Impersonal rows never, Imperative rows
for tu/nous/vous only, Full rows for all six persons — in the table's
own mood-then-tense insertion order. -/
theorem person_rows_spec
    (conjugation : List (String × List (String × List String)))
    (person : String) (hp : person ∈ persons6)
    (hwf : wfTable conjugation = true) :
    (display_person_rows conjugation person).map (fun r => (r.1, r.2.1))
    = spec_admitted_pairs conjugation person := by
  unfold display_person_rows spec_admitted_pairs
  rw [List.map_flatMap]
  induction conjugation with
  | nil => rfl
  | cons md t ih =>
    rw [wfTable, List.all_cons, Bool.and_eq_true] at hwf
    simp only [List.flatMap_cons]
    rw [ih hwf.2]
    congr 1
    rw [List.map_filterMap]
    apply filterMap_eq_map_filter
    intro td htd
    exact person_row_proj person md.1 td hp
      ((List.all_eq_true.mp hwf.1) td htd)

/-- Witness for the amended C9 on a concrete mixed-shape table. -/
theorem person_rows_spec_witness :
    ("nous" ∈ persons6)
    ∧ (wfTable
        [("indicatif",
          [("présent", ["vais", "vas", "va", "allons", "allez", "vont"]),
           ("imparfait",
            ["allais", "allais", "allait", "allions", "alliez", "allaient"])]),
         ("imperatif", [("imperatif-présent", ["va", "allons", "allez"])]),
         ("participe", [("participe-présent", ["allant"])])] = true)
    ∧ ((display_person_rows
        [("indicatif",
          [("présent", ["vais", "vas", "va", "allons", "allez", "vont"]),
           ("imparfait",
            ["allais", "allais", "allait", "allions", "alliez", "allaient"])]),
         ("imperatif", [("imperatif-présent", ["va", "allons", "allez"])]),
         ("participe", [("participe-présent", ["allant"])])]
        "nous").map (fun r => (r.1, r.2.1))
      = spec_admitted_pairs
        [("indicatif",
          [("présent", ["vais", "vas", "va", "allons", "allez", "vont"]),
           ("imparfait",
            ["allais", "allais", "allait", "allions", "alliez", "allaient"])]),
         ("imperatif", [("imperatif-présent", ["va", "allons", "allez"])]),
         ("participe", [("participe-présent", ["allant"])])]
        "nous") := by
  have h := person_rows_spec
    [("indicatif",
      [("présent", ["vais", "vas", "va", "allons", "allez", "vont"]),
       ("imparfait",
        ["allais", "allais", "allait", "allions", "alliez", "allaient"])]),
     ("imperatif", [("imperatif-présent", ["va", "allons", "allez"])]),
     ("participe", [("participe-présent", ["allant"])])]
    "nous" (by decide) (by decide)
  exact ⟨by decide, by decide, h⟩

/-!
## Key generation (C3)

`_generate_key` joins the arguments with the pipe character before
digesting, so the join is not injective: an argument containing the
separator collides with the correspondingly split tuple.  On tuples of
separator-free strings the pre-digest key string is injective, which is
proved by exhibiting the splitting inverse.
-/

/-- A string is separator-free when no character is the pipe. -/
def pipe_free (s : String) : Bool :=
  s.data.all (fun c => !(c == '|'))

/-- Prepend characters onto the first block of a split. -/
def consBlock (a : List Char) : List (List Char) → List (List Char)
  | [] => [a]
  | h :: r => (a ++ h) :: r

/-- Split a character list at every pipe (the inverse of `joinPipe` on
separator-free blocks). -/
def splitPipe : List Char → List (List Char)
  | [] => [[]]
  | c :: t => if c = '|' then [] :: splitPipe t else consBlock [c] (splitPipe t)

theorem consBlock_ne_nil (a : List Char) (r : List (List Char)) :
    consBlock a r ≠ [] := by
  cases r <;> simp [consBlock]

theorem splitPipe_ne_nil (l : List Char) : splitPipe l ≠ [] := by
  induction l with
  | nil => simp [splitPipe]
  | cons c t ih =>
    by_cases h : c = '|'
    · simp [splitPipe, h]
    · simp only [splitPipe, if_neg h]
      exact consBlock_ne_nil _ _

theorem consBlock_append (a b : List Char) (r : List (List Char)) :
    consBlock (a ++ b) r = consBlock a (consBlock b r) := by
  cases r <;> simp [consBlock]

theorem splitPipe_append (a l : List Char)
    (ha : a.all (fun c => !(c == '|')) = true) :
    splitPipe (a ++ l) = consBlock a (splitPipe l) := by
  induction a with
  | nil =>
    obtain ⟨h, r, hr⟩ : ∃ h r, splitPipe l = h :: r := by
      cases hsp : splitPipe l with
      | nil => exact absurd hsp (splitPipe_ne_nil l)
      | cons h r => exact ⟨h, r, rfl⟩
    simp [hr, consBlock]
  | cons c a ih =>
    simp only [List.all_cons, Bool.and_eq_true, Bool.not_eq_true'] at ha
    have hc : ¬ (c = '|') := by
      intro hh
      rw [hh] at ha
      simp at ha
    have ih2 := ih (by simpa using ha.2)
    have h1 : splitPipe ((c :: a) ++ l) = consBlock [c] (splitPipe (a ++ l)) := by
      simp [splitPipe, if_neg hc]
    rw [h1, ih2, ← consBlock_append]
    rfl

theorem splitPipe_joinPipe (ls : List (List Char)) (hn : ls ≠ [])
    (hf : ∀ a ∈ ls, a.all (fun c => !(c == '|')) = true) :
    splitPipe (joinPipe ls) = ls := by
  induction ls with
  | nil => exact absurd rfl hn
  | cons a t ih =>
    cases t with
    | nil =>
      have ha := hf a (by simp)
      have : joinPipe [a] = a ++ [] := by simp [joinPipe]
      rw [this, splitPipe_append a [] ha]
      simp [splitPipe, consBlock]
    | cons b t2 =>
      have ha := hf a (by simp)
      have : joinPipe (a :: b :: t2) = a ++ '|' :: joinPipe (b :: t2) := rfl
      rw [this, splitPipe_append a _ ha]
      have hsp : splitPipe ('|' :: joinPipe (b :: t2))
          = [] :: splitPipe (joinPipe (b :: t2)) := by
        simp [splitPipe]
      rw [hsp]
      have iht := ih (by simp) (fun x hx => hf x (List.mem_cons_of_mem a hx))
      rw [iht]
      simp [consBlock]

theorem string_data_injective : Function.Injective String.data := by
  intro a b h
  cases a
  cases b
  exact congrArg String.mk h

/-- On nonempty tuples of separator-free strings, the pre-digest key
string determines the tuple. -/
theorem key_string_injective (args1 args2 : List String)
    (h1 : args1.all pipe_free = true) (h2 : args2.all pipe_free = true)
    (hn1 : args1 ≠ []) (hn2 : args2 ≠ [])
    (h : key_string args1 = key_string args2) : args1 = args2 := by
  have hd : joinPipe (args1.map String.data)
      = joinPipe (args2.map String.data) := by
    have := congrArg String.data h
    simpa [key_string] using this
  have hall1 : ∀ a ∈ args1.map String.data,
      a.all (fun c => !(c == '|')) = true := by
    intro a ha
    simp only [List.mem_map] at ha
    obtain ⟨s, hs, rfl⟩ := ha
    have := (List.all_eq_true.mp h1) s hs
    simpa [pipe_free] using this
  have hall2 : ∀ a ∈ args2.map String.data,
      a.all (fun c => !(c == '|')) = true := by
    intro a ha
    simp only [List.mem_map] at ha
    obtain ⟨s, hs, rfl⟩ := ha
    have := (List.all_eq_true.mp h2) s hs
    simpa [pipe_free] using this
  have hm : args1.map String.data = args2.map String.data := by
    rw [← splitPipe_joinPipe (args1.map String.data) (by simpa using hn1) hall1,
        ← splitPipe_joinPipe (args2.map String.data) (by simpa using hn2) hall2,
        hd]
  exact (List.map_injective_iff.mpr string_data_injective) hm

/-- C3 counterexample: the tuples `("a|b")` and `("a", "b")` are
distinct, yet `_generate_key` gives them the same digest, because the
join collapses them to the same key string before hashing. -/
theorem generate_key_not_injective :
    (_generate_key ["a|b"] = _generate_key ["a", "b"])
    ∧ (["a|b"] : List String) ≠ ["a", "b"] :=
  ⟨rfl, by decide⟩

/-- C3 amended: the key is a pure function of the tuple, but distinct
tuples are only guaranteed distinct key strings when they are nonempty
and no argument contains the separator; in particular the concrete
swapped tuples `("a","b")` and `("b","a")` receive different digests,
while a tuple with an embedded pipe collides with its split form. -/
theorem generate_key_amended (args1 args2 : List String)
    (h1 : args1.all pipe_free = true) (h2 : args2.all pipe_free = true)
    (hn1 : args1 ≠ []) (hn2 : args2 ≠ []) (hne : args1 ≠ args2) :
    (key_string args1 ≠ key_string args2)
    ∧ (_generate_key ["a", "b"] ≠ _generate_key ["b", "a"]) := by
  refine ⟨?_, by decide⟩
  intro h
  exact hne (key_string_injective args1 args2 h1 h2 hn1 hn2 h)

/-- Witness for the amended C3 at the concrete swapped tuples. -/
theorem generate_key_amended_witness :
    ((["a", "b"] : List String).all pipe_free = true)
    ∧ ((["b", "a"] : List String).all pipe_free = true)
    ∧ ((["a", "b"] : List String) ≠ [])
    ∧ ((["b", "a"] : List String) ≠ [])
    ∧ ((["a", "b"] : List String) ≠ ["b", "a"])
    ∧ (key_string ["a", "b"] ≠ key_string ["b", "a"])
    ∧ (_generate_key ["a", "b"] ≠ _generate_key ["b", "a"]) := by
  have h := generate_key_amended ["a", "b"] ["b", "a"]
    (by decide) (by decide) (by decide) (by decide) (by decide)
  exact ⟨by decide, by decide, by decide, by decide, by decide, h.1, h.2⟩

/-- Witness for C10 at a concrete cache. -/
theorem cached_none_indistinguishable_witness :
    ((0 : ℚ) ≤ (ToolCache.init (α := Nat) Backing.absent 60).max_age)
    ∧ (dictFind (ToolCache.init (α := Nat) Backing.absent 60).cache
        (_generate_key ["absent"]) = none)
    ∧ (((ToolCache.init (α := Nat) Backing.absent 60).set 0 none
        ["stored"]).get 0 ["stored"]).1 = none
    ∧ (((ToolCache.init (α := Nat) Backing.absent 60).get 0 ["absent"]).1
        = none) := by
  have h := cached_none_indistinguishable
    (ToolCache.init (α := Nat) Backing.absent 60) 0 ["stored"]
    (ToolCache.init (α := Nat) Backing.absent 60) 0 ["absent"]
    (by norm_num [ToolCache.init]) rfl
  exact ⟨by norm_num [ToolCache.init], rfl, h.1, h.2⟩

